import Mathlib

/-!
Shallow embedding of `src/HLSPonyfill.ts` from the hls-ponyfill repository.

The embedding models the track-synchronization and lifecycle logic of the
`HLSPonyfill` class.  Pure helper modules of the repository that are not
present under `src/` (`clamp`, `addCueToTrack`) are modelled from the
specification and marked as such in their doc comments.  The external
`media-track-list` dependency (track-list containers) is modelled from the
specification's description of the container semantics: an ordered list
exposing append-style add, identity-based remove, first-match
lookup-by-identifier, and selected/enabled setters that unmark all siblings.
-/

/-- Mode of a native browser TextTrack: one of disabled, hidden, showing. -/
inductive TrackMode where
  | disabled
  | hidden
  | showing
deriving DecidableEq, Repr

/-- A parsed WebVTT cue: start time, end time and text payload.
Times are modelled as rationals (JS numbers used only via equality and order here). -/
structure VTTCue where
  startTime : ℚ
  endTime : ℚ
  text : String
deriving DecidableEq, Repr

/-- A native text track of the playback surface: kind, label, language,
current mode and its list of cues. -/
structure TextTrack where
  kind : String
  label : String
  language : String
  mode : TrackMode
  cues : List VTTCue
deriving DecidableEq, Repr

/-- A child track element of the video element; `dataHlsPonyfill` models the
presence of the `data-hls-ponyfill` attribute set by `initNativeTextTrack`. -/
structure TrackElement where
  dataHlsPonyfill : Bool
  kind : String
  label : String
  srclang : String
deriving DecidableEq, Repr

/-- The `attrs` object of an hls.js level; only `LANGUAGE` is read by the core. -/
structure LevelAttrs where
  LANGUAGE : String
deriving DecidableEq, Repr

/-- An hls.js quality level as consumed by the core: url list (the first url
is used as the stable identifier), name, attrs, dimensions and bitrate. -/
structure Level where
  url : List String
  name : String
  attrs : LevelAttrs
  width : Nat
  height : Nat
  bitrate : Nat
deriving DecidableEq, Repr

/-- An hls.js MediaPlaylist (audio or subtitle rendition) as consumed by the
core: url (identifier for audio), language, name and type. -/
structure HlsMediaPlaylist where
  url : String
  lang : String
  name : String
  type : String
deriving DecidableEq, Repr

/-- The readable part of the hls.js engine state consumed by the core:
rendition arrays and the current indices (JS numbers, `-1` meaning none). -/
structure HlsState where
  levels : List Level
  currentLevel : Int
  audioTracks : List HlsMediaPlaylist
  audioTrack : Int
  subtitleTracks : List HlsMediaPlaylist
  subtitleTrack : Int
deriving DecidableEq, Repr

/-- A VideoTrack entry of the video track-list container.  The `created`
flag models membership in the private `createdVideoTracks` provenance set:
the code inserts into that set exactly the fresh tracks it constructs, so
set membership is a per-entry property. -/
structure VideoTrack where
  id : String
  language : String
  label : String
  width : Nat
  height : Nat
  bitrate : Nat
  selected : Bool
  created : Bool
deriving DecidableEq, Repr

/-- An AudioTrack entry of the audio track-list container; `created` models
membership in the `createdAudioTracks` provenance set. -/
structure AudioTrack where
  id : String
  language : String
  label : String
  enabled : Bool
  created : Bool
deriving DecidableEq, Repr

/-- JavaScript array indexing `xs[i]` with a possibly negative index:
yields `undefined` (`none`) when out of range. -/
def jsIndex {α : Type} (xs : List α) (i : Int) : Option α :=
  if i < 0 then none else xs.get? i.toNat

/-- Lower-casing of a string, modelling the JS `toLowerCase()` call
character by character. -/
def strToLower (s : String) : String :=
  String.mk (s.data.map Char.toLower)

/-- Direct translation of `isCorrespondingTrack` (HLSPonyfill.ts lines
572-582): the rendition's type equals the text track's kind
(case-insensitive on the rendition side), the rendition's name equals the
label, and the track declares no language or its language equals the
rendition's. -/
def isCorrespondingTrack (textTrack : TextTrack) (hlsTrack : HlsMediaPlaylist) : Bool :=
  strToLower hlsTrack.type == textTrack.kind &&
  hlsTrack.name == textTrack.label &&
  (textTrack.language == "" || textTrack.language == hlsTrack.lang)

/-- Two cues are duplicates when start time, end time and payload coincide. -/
def isDuplicateCue (a b : VTTCue) : Bool :=
  decide (a.startTime = b.startTime ∧ a.endTime = b.endTime ∧ a.text = b.text)

/-- Modelled from the spec: the helper module `src/addCueToTrack.ts` is not
in the repository snapshot.  Per the spec, appending a cue skips (does not
error on) a cue that duplicates one already present, where duplicate means
identical start time, end time and payload. -/
def addCueToTrack (t : TextTrack) (c : VTTCue) : TextTrack :=
  if t.cues.any (fun c0 => isDuplicateCue c0 c) then t
  else { t with cues := t.cues ++ [c] }

/-- The loop body of `addCues`: walk the surface's text tracks, add every
cue to the first track corresponding to the current subtitle rendition,
then stop (the `break` in the source). -/
def addCuesToFirst (tts : List TextTrack) (cues : List VTTCue) (cur : HlsMediaPlaylist) :
    List TextTrack :=
  match tts with
  | [] => []
  | t :: rest =>
    if isCorrespondingTrack t cur then (cues.foldl addCueToTrack t) :: rest
    else t :: addCuesToFirst rest cues cur

/-- Direct translation of `addCues` (lines 554-566): bail out when
`subtitleTrack` is `-1` or the indexed subtitle rendition is absent,
otherwise push the cues into the first corresponding text track. -/
def addCues (tts : List TextTrack) (cues : List VTTCue) (hls : HlsState) : List TextTrack :=
  if hls.subtitleTrack = -1 then tts
  else
    match jsIndex hls.subtitleTracks hls.subtitleTrack with
    | none => tts
    | some cur => addCuesToFirst tts cues cur

/-- The loop body of `updateTextTrack` (lines 527-535): a corresponding
track in disabled mode is set to showing, a non-corresponding track not in
disabled mode is set to disabled, every other track is left untouched. -/
def updateTextTrackOne (track : HlsMediaPlaylist) (t : TextTrack) : TextTrack :=
  if isCorrespondingTrack t track then
    (if t.mode = TrackMode.disabled then { t with mode := TrackMode.showing } else t)
  else
    (if t.mode ≠ TrackMode.disabled then { t with mode := TrackMode.disabled } else t)

/-- Direct translation of `updateTextTrack` (lines 522-536): a no-op when
no subtitle rendition is active, otherwise the loop body applied to every
text track of the surface. -/
def updateTextTrack (tts : List TextTrack) (hls : HlsState) : List TextTrack :=
  match jsIndex hls.subtitleTracks hls.subtitleTrack with
  | none => tts
  | some track => tts.map (updateTextTrackOne track)

/-- Modelled from the spec: the `media-track-list` container's
lookup-by-identifier (`getTrackById`), returning the index and entry of the
first track whose identifier matches, for video lists. -/
def getTrackByIdV : List VideoTrack → String → Option (Nat × VideoTrack)
  | [], _ => none
  | t :: rest, i =>
    if t.id = i then some (0, t)
    else (getTrackByIdV rest i).map (fun p => (p.1 + 1, p.2))

/-- Modelled from the spec: lookup-by-identifier for audio lists. -/
def getTrackByIdA : List AudioTrack → String → Option (Nat × AudioTrack)
  | [], _ => none
  | t :: rest, i =>
    if t.id = i then some (0, t)
    else (getTrackByIdA rest i).map (fun p => (p.1 + 1, p.2))

/-- The scan loop of `onVideoTracksChange` (lines 382-387): the first entry
whose `selected` flag is set. -/
def firstSelectedV : List VideoTrack → Option VideoTrack
  | [] => none
  | t :: rest => if t.selected then some t else firstSelectedV rest

/-- The scan loop of `onAudioTracksChange` (lines 414-419): the first entry
whose `enabled` flag is set. -/
def firstEnabledA : List AudioTrack → Option AudioTrack
  | [] => none
  | t :: rest => if t.enabled then some t else firstEnabledA rest

/-- Modelled from the spec: the `selected` setter of a VideoTrack inside a
list marks that entry selected and unmarks every sibling ("mark it selected
and leave all siblings unmarked"). -/
def selectTrackAt : List VideoTrack → Nat → List VideoTrack
  | [], _ => []
  | t :: rest, 0 =>
    { t with selected := true } :: rest.map (fun r => { r with selected := false })
  | t :: rest, k + 1 => { t with selected := false } :: selectTrackAt rest k

/-- Modelled from the spec: the `enabled` setter of an AudioTrack inside a
list (this system treats audio as single-select). -/
def enableTrackAt : List AudioTrack → Nat → List AudioTrack
  | [], _ => []
  | t :: rest, 0 =>
    { t with enabled := true } :: rest.map (fun r => { r with enabled := false })
  | t :: rest, k + 1 => { t with enabled := false } :: enableTrackAt rest k

/-- The `findIndex` call of `onVideoTracksChange` (lines 397-399): first
level whose identifier (first url entry) equals the given id. -/
def findLevelIdx : List Level → String → Option Nat
  | [], _ => none
  | l :: rest, i =>
    if l.url.headD "" = i then some 0 else (findLevelIdx rest i).map (· + 1)

/-- The `findIndex` call of `onAudioTracksChange` (lines 427-429): first
audio rendition whose url equals the given id. -/
def findAudioIdx : List HlsMediaPlaylist → String → Option Nat
  | [], _ => none
  | a :: rest, i =>
    if a.url = i then some 0 else (findAudioIdx rest i).map (· + 1)

/-- Body of `updateVideoTrack` (lines 489-500) after its guards: look up the
active level, find the entry with its identifier, and set its `selected`
flag when not already set. -/
def updateVideoTrackCore (list : List VideoTrack) (hls : HlsState) : List VideoTrack :=
  match jsIndex hls.levels hls.currentLevel with
  | none => list
  | some level =>
    match getTrackByIdV list (level.url.headD "") with
    | none => list
    | some (k, t) => if t.selected then list else selectTrackAt list k

/-- Direct translation of `updateVideoTrack` including its guards
(`!this.hlsSrc || !this.videoTrackList` gives an early return). -/
def updateVideoTrack (hlsSrc : Option String) (list : Option (List VideoTrack))
    (hls : HlsState) : Option (List VideoTrack) :=
  match hlsSrc, list with
  | some _, some l => some (updateVideoTrackCore l hls)
  | _, _ => list

/-- Body of `updateAudioTrack` (lines 505-515) after its guards. -/
def updateAudioTrackCore (list : List AudioTrack) (hls : HlsState) : List AudioTrack :=
  match jsIndex hls.audioTracks hls.audioTrack with
  | none => list
  | some current =>
    match getTrackByIdA list current.url with
    | none => list
    | some (k, t) => if t.enabled then list else enableTrackAt list k

/-- Direct translation of `updateAudioTrack` including its guards. -/
def updateAudioTrack (hlsSrc : Option String) (list : Option (List AudioTrack))
    (hls : HlsState) : Option (List AudioTrack) :=
  match hlsSrc, list with
  | some _, some l => some (updateAudioTrackCore l hls)
  | _, _ => list

/-- Body of `onVideoTracksChange` (lines 376-403) after its guards; the
result is the engine-switch command issued: `some k` when `currentLevel` is
written with `k`, `none` when no write happens. -/
def onVideoTracksChangeCore (hls : HlsState) (list : List VideoTrack) : Option Nat :=
  match firstSelectedV list with
  | none => none
  | some sel =>
    match jsIndex hls.levels hls.currentLevel with
    | some cur =>
      if sel.id = cur.url.headD "" then none else findLevelIdx hls.levels sel.id
    | none => findLevelIdx hls.levels sel.id

/-- Direct translation of `onVideoTracksChange` including its guards
(`!this.hls` and `!this.videoTrackList` give an early return). -/
def onVideoTracksChange (hls : Option HlsState) (list : Option (List VideoTrack)) :
    Option Nat :=
  match hls, list with
  | some h, some l => onVideoTracksChangeCore h l
  | _, _ => none

/-- Body of `onAudioTracksChange` (lines 408-433) after its guards; the
result is the engine-switch command issued on `audioTrack`. -/
def onAudioTracksChangeCore (hls : HlsState) (list : List AudioTrack) : Option Nat :=
  match firstEnabledA list with
  | none => none
  | some sel =>
    match jsIndex hls.audioTracks hls.audioTrack with
    | some cur =>
      if cur.url = sel.id then none else findAudioIdx hls.audioTracks sel.id
    | none => findAudioIdx hls.audioTracks sel.id

/-- Direct translation of `onAudioTracksChange` including its guards. -/
def onAudioTracksChange (hls : Option HlsState) (list : Option (List AudioTrack)) :
    Option Nat :=
  match hls, list with
  | some h, some l => onAudioTracksChangeCore h l
  | _, _ => none

/-- The forEach of `updateTrackLists` over `hls.levels` (lines 457-471):
one fresh VideoTrack per level, in engine order, selected exactly when the
level index equals `currentLevel`; `idx` is the index of the head level. -/
def mkVideoTracks (cur : Int) (idx : Nat) : List Level → List VideoTrack
  | [] => []
  | l :: rest =>
    { id := l.url.headD "", language := l.attrs.LANGUAGE, label := l.name,
      width := l.width, height := l.height, bitrate := l.bitrate,
      selected := cur = (idx : Int), created := true } :: mkVideoTracks cur (idx + 1) rest

/-- The forEach of `updateTrackLists` over `hls.audioTracks` (lines
474-483): one fresh AudioTrack per rendition, enabled exactly when the
rendition index equals `audioTrack`. -/
def mkAudioTracks (cur : Int) (idx : Nat) : List HlsMediaPlaylist → List AudioTrack
  | [] => []
  | a :: rest =>
    { id := a.url, language := a.lang, label := a.name,
      enabled := cur = (idx : Int), created := true } :: mkAudioTracks cur (idx + 1) rest

/-- The mutable state of an `HLSPonyfill` instance together with the parts
of the playback surface it owns: the video element's `src` attribute, its
ponyfill-created track elements, the engine-instance and attachment flags,
the stored HLS source URL, the bound track lists with their change-listener
bookkeeping, and the seekable-range adapter presence. -/
structure PonyState where
  srcAttr : Option String
  trackElements : List TrackElement
  hasHlsInstance : Bool
  hlsAttached : Bool
  hlsSrc : Option String
  videoTrackList : Option (List VideoTrack)
  audioTrackList : Option (List AudioTrack)
  videoChangeBound : Bool
  videoBoundAttached : Bool
  audioChangeBound : Bool
  audioBoundAttached : Bool
  hasSeekable : Bool
deriving DecidableEq, Repr

/-- Direct translation of `updateTrackLists` (lines 440-484): bail out when
no session or no lists; otherwise remove the provenance-tracked entries
from both lists and append one fresh entry per engine-reported rendition
(the container's `addTrack` appends; modelled from the spec since
`media-track-list` is an external dependency). -/
def updateTrackLists (s : PonyState) (hls : HlsState) : PonyState :=
  if s.hlsSrc = none then s
  else
    match s.videoTrackList, s.audioTrackList with
    | some vl, some al =>
      { s with
        videoTrackList :=
          some (vl.filter (fun t => !t.created) ++ mkVideoTracks hls.currentLevel 0 hls.levels),
        audioTrackList :=
          some (al.filter (fun t => !t.created) ++ mkAudioTracks hls.audioTrack 0 hls.audioTracks) }
    | _, _ => s

/-- Direct translation of `detachHls` (lines 283-329): remove the ponyfill
track elements, unsubscribe the stored change listeners (a no-op when the
stored listener is no longer attached, as `removeEventListener` is), remove
exactly the provenance-tracked entries from each present list, clear the
provenance sets, drop the engine instance, and clear session state. -/
def detachHls (s : PonyState) : PonyState :=
  { s with
    trackElements := s.trackElements.filter (fun e => !e.dataHlsPonyfill),
    videoTrackList := s.videoTrackList.map (fun vl => vl.filter (fun t => !t.created)),
    audioTrackList := s.audioTrackList.map (fun al => al.filter (fun t => !t.created)),
    videoBoundAttached :=
      if s.videoTrackList.isSome && s.videoChangeBound then false else s.videoBoundAttached,
    audioBoundAttached :=
      if s.audioTrackList.isSome && s.audioChangeBound then false else s.audioBoundAttached,
    hasHlsInstance := false,
    hlsAttached := false,
    hlsSrc := none,
    hasSeekable := false }

/-- Direct translation of the public `detach` (lines 184-186). -/
def detach (s : PonyState) : PonyState :=
  detachHls s

/-- Direct translation of `setSrc` (lines 120-139).  The helper predicates
`isHlsSource` and the `blob:` protocol test live in repository modules not
present in the snapshot, and the HLS-attach branch constructs an engine
instance; all three are taken as parameters, so every theorem below holds
for every choice of them. -/
def setSrc (isHlsSource : String → Bool) (isBlobUrl : String → Bool)
    (initHlsFn : PonyState → String → PonyState) (s : PonyState) (src : String) :
    PonyState :=
  if src = "" then
    { detachHls s with srcAttr := none }
  else if isHlsSource src then initHlsFn s src
  else
    let isAttached := s.hasHlsInstance && s.hlsAttached
    let s1 := if isAttached && !isBlobUrl src then detachHls s else s
    { s1 with hlsSrc := none, srcAttr := some src }

/-- The state of the surface-advertised track-list property of one kind:
absent, present but not an instance of the required container class, or a
proper container with its entries. -/
inductive SurfaceTrackAttr (α : Type) where
  | absent
  | wrongType
  | inst (entries : List α)
deriving DecidableEq, Repr

/-- The state relevant to binding one track-list container: the surface's
advertised property, the ponyfill's list reference, whether a bound change
listener reference is stored, and how many change listeners the ponyfill
has subscribed on the container. -/
structure BindState (α : Type) where
  surfaceAttr : SurfaceTrackAttr α
  boundList : Option (List α)
  changeBound : Bool
  listeners : Nat
deriving DecidableEq, Repr

/-- Direct translation of `initVideoTrackList` (lines 336-355): reuse the
surface's container when it is an instance of the required class, otherwise
construct an empty one and publish it; in both cases store a freshly bound
change listener and subscribe it once. -/
def initVideoTrackList (b : BindState VideoTrack) : BindState VideoTrack :=
  match b.surfaceAttr with
  | SurfaceTrackAttr.inst l =>
    { b with boundList := some l, changeBound := true, listeners := b.listeners + 1 }
  | _ =>
    { b with boundList := some [], surfaceAttr := SurfaceTrackAttr.inst [],
             changeBound := true, listeners := b.listeners + 1 }

/-- Direct translation of `initAudioTrackList` (lines 357-371). -/
def initAudioTrackList (b : BindState AudioTrack) : BindState AudioTrack :=
  match b.surfaceAttr with
  | SurfaceTrackAttr.inst l =>
    { b with boundList := some l, changeBound := true, listeners := b.listeners + 1 }
  | _ =>
    { b with boundList := some [], surfaceAttr := SurfaceTrackAttr.inst [],
             changeBound := true, listeners := b.listeners + 1 }

/-- The error message of the static `Hls` getter (lines 40-48). -/
def noHlsCtorMessage : String :=
  "HLSPonyfill: no Hls constructor found. Assign one via HLSPonyfill.Hls = require(\x22hls.js\x22) (or import)."

/-- Direct translation of the static `Hls` getter (lines 40-48): the
user-assigned constructor, falling back to the global one; a throw is
modelled as `Except.error` with the thrown message. -/
def staticHlsGetter {α : Type} (hlsConstructor globalHls : Option α) : Except String α :=
  match hlsConstructor with
  | some c => Except.ok c
  | none =>
    match globalHls with
    | some c => Except.ok c
    | none => Except.error noHlsCtorMessage

/-- The synchronous prefix of `initHls` (lines 200-211): detach any prior
session, bind both track-list containers, then resolve the engine
constructor via the static getter — which throws before any engine
construction or asynchronous work when no constructor is available. -/
def initHlsStart {α : Type} (hlsConstructor globalHls : Option α)
    (s : PonyState) (bv : BindState VideoTrack) (ba : BindState AudioTrack) :
    Except String (PonyState × BindState VideoTrack × BindState AudioTrack × α) :=
  match staticHlsGetter hlsConstructor globalHls with
  | Except.error e => Except.error e
  | Except.ok c =>
    Except.ok (detachHls s, initVideoTrackList bv, initAudioTrackList ba, c)

/-- Modelled from the spec: the helper module `src/clamp.ts` is not in the
repository snapshot; `clamp(value, min, max)` restricts `value` to the
interval `[min, max]`. -/
def clamp (value lower upper : ℚ) : ℚ :=
  min (max value lower) upper

/-- Direct translation of the `currentTime` setter (lines 156-165): while
an HLS source is stored and the surface's seekable range list is non-empty,
the assigned value is clamped to the first seekable range; otherwise the
raw value is assigned.  The result is the value written to
`video.currentTime`. -/
def currentTimeSet (hlsSrc : Option String) (seekable : List (ℚ × ℚ)) (value : ℚ) : ℚ :=
  match hlsSrc, seekable with
  | some _, (a, b) :: _ => clamp value a b
  | _, _ => value

/-- Fixture: a 480p level used by concrete witnesses. -/
def exLevel1 : Level :=
  { url := ["https://cdn/l480.m3u8"], name := "480p",
    attrs := { LANGUAGE := "en" }, width := 854, height := 480, bitrate := 1000000 }

/-- Fixture: a 720p level used by concrete witnesses. -/
def exLevel2 : Level :=
  { url := ["https://cdn/l720.m3u8"], name := "720p",
    attrs := { LANGUAGE := "en" }, width := 1280, height := 720, bitrate := 2000000 }

/-- Fixture: an English audio rendition. -/
def exAudio1 : HlsMediaPlaylist :=
  { url := "https://cdn/a-en.m3u8", lang := "en", name := "English", type := "AUDIO" }

/-- Fixture: an English subtitle rendition. -/
def exSub1 : HlsMediaPlaylist :=
  { url := "https://cdn/s-en.m3u8", lang := "en", name := "English", type := "SUBTITLES" }

/-- Fixture: an engine state with two levels, one audio rendition and one
subtitle rendition; level 1 and audio 0 are active. -/
def exHls : HlsState :=
  { levels := [exLevel1, exLevel2], currentLevel := 1,
    audioTracks := [exAudio1], audioTrack := 0,
    subtitleTracks := [exSub1], subtitleTrack := 0 }

/-- Fixture: an externally inserted (non-provenance) video track. -/
def exDashVideoTrack : VideoTrack :=
  { id := "dash-video-1", language := "de", label := "dash", width := 640,
    height := 360, bitrate := 500000, selected := false, created := false }

/-- Fixture: an externally inserted (non-provenance) audio track. -/
def exDashAudioTrack : AudioTrack :=
  { id := "dash-audio-1", language := "de", label := "dash", enabled := false,
    created := false }

theorem filter_self_idem {α : Type} (p : α → Bool) (l : List α) :
    (l.filter p).filter p = l.filter p := by
  induction l with
  | nil => rfl
  | cons x xs ih => cases hx : p x <;> simp [List.filter_cons, hx, ih]

theorem all_filter_self {α : Type} (p : α → Bool) (l : List α) :
    (l.filter p).all p = true := by
  induction l with
  | nil => rfl
  | cons x xs ih => cases hx : p x <;> simp [List.filter_cons, hx, ih]

theorem filter_not_filter {α : Type} (p : α → Bool) (l : List α) :
    (l.filter (fun a => !(p a))).filter p = [] := by
  induction l with
  | nil => rfl
  | cons x xs ih => cases hx : p x <;> simp [List.filter_cons, hx, ih]

/-- C8: when no engine constructor has been supplied (neither assigned nor
global), both the static getter and the synchronous prefix of `initHls`
fail at once with the descriptive configuration-error message; when a
constructor has been supplied, the getter returns it and no error occurs. -/
theorem claim_C8 {α : Type} (c : α) (g : Option α) :
    (∀ (s : PonyState) (bv : BindState VideoTrack) (ba : BindState AudioTrack),
      initHlsStart (α := α) none none s bv ba = Except.error noHlsCtorMessage) ∧
    staticHlsGetter (α := α) none none = Except.error noHlsCtorMessage ∧
    staticHlsGetter (some c) g = Except.ok c ∧
    staticHlsGetter none (some c) = Except.ok c ∧
    (∀ (s : PonyState) (bv : BindState VideoTrack) (ba : BindState AudioTrack),
      initHlsStart (some c) g s bv ba =
        Except.ok (detachHls s, initVideoTrackList bv, initAudioTrackList ba, c)) :=
  ⟨fun _ _ _ => rfl, rfl, rfl, rfl, fun _ _ _ => rfl⟩

/-- C9: binding a track-list container reuses a surface container of the
required type unmodified without reassigning the advertised reference,
constructs and publishes a fresh empty container only when none of the
required type exists, and in all cases subscribes exactly one change
listener and stores its reference. -/
theorem claim_C9 (bv : BindState VideoTrack) (ba : BindState AudioTrack) :
    ((∀ l, bv.surfaceAttr = SurfaceTrackAttr.inst l →
        (initVideoTrackList bv).surfaceAttr = SurfaceTrackAttr.inst l ∧
        (initVideoTrackList bv).boundList = some l) ∧
      ((bv.surfaceAttr = SurfaceTrackAttr.absent ∨ bv.surfaceAttr = SurfaceTrackAttr.wrongType) →
        (initVideoTrackList bv).surfaceAttr = SurfaceTrackAttr.inst [] ∧
        (initVideoTrackList bv).boundList = some []) ∧
      (initVideoTrackList bv).listeners = bv.listeners + 1 ∧
      (initVideoTrackList bv).changeBound = true) ∧
    ((∀ l, ba.surfaceAttr = SurfaceTrackAttr.inst l →
        (initAudioTrackList ba).surfaceAttr = SurfaceTrackAttr.inst l ∧
        (initAudioTrackList ba).boundList = some l) ∧
      ((ba.surfaceAttr = SurfaceTrackAttr.absent ∨ ba.surfaceAttr = SurfaceTrackAttr.wrongType) →
        (initAudioTrackList ba).surfaceAttr = SurfaceTrackAttr.inst [] ∧
        (initAudioTrackList ba).boundList = some []) ∧
      (initAudioTrackList ba).listeners = ba.listeners + 1 ∧
      (initAudioTrackList ba).changeBound = true) := by
  constructor
  · rcases bv with ⟨attr, bl, cb, ls⟩
    cases attr <;> simp [initVideoTrackList]
  · rcases ba with ⟨attr, bl, cb, ls⟩
    cases attr <;> simp [initAudioTrackList]

/-- Witness for C9 at concrete inputs: a surface that already has a video
container with one external entry, and a surface with no audio container. -/
theorem claim_C9_witness :
    ((initVideoTrackList
        { surfaceAttr := SurfaceTrackAttr.inst [exDashVideoTrack], boundList := none,
          changeBound := false, listeners := 0 }).surfaceAttr =
      SurfaceTrackAttr.inst [exDashVideoTrack] ∧
     (initVideoTrackList
        { surfaceAttr := SurfaceTrackAttr.inst [exDashVideoTrack], boundList := none,
          changeBound := false, listeners := 0 }).boundList = some [exDashVideoTrack]) ∧
    ((initAudioTrackList
        { surfaceAttr := SurfaceTrackAttr.absent, boundList := none,
          changeBound := false, listeners := 0 }).surfaceAttr = SurfaceTrackAttr.inst [] ∧
     (initAudioTrackList
        { surfaceAttr := SurfaceTrackAttr.absent, boundList := none,
          changeBound := false, listeners := 0 }).boundList = some []) ∧
    (initVideoTrackList
        { surfaceAttr := SurfaceTrackAttr.inst [exDashVideoTrack], boundList := none,
          changeBound := false, listeners := 0 }).listeners = 1 := by
  refine ⟨?_, ?_, ?_⟩
  · exact (claim_C9
      { surfaceAttr := SurfaceTrackAttr.inst [exDashVideoTrack], boundList := none,
        changeBound := false, listeners := 0 }
      { surfaceAttr := SurfaceTrackAttr.absent, boundList := none,
        changeBound := false, listeners := 0 }).1.1 [exDashVideoTrack] rfl
  · exact (claim_C9
      { surfaceAttr := SurfaceTrackAttr.inst [exDashVideoTrack], boundList := none,
        changeBound := false, listeners := 0 }
      { surfaceAttr := SurfaceTrackAttr.absent, boundList := none,
        changeBound := false, listeners := 0 }).2.2.1 (Or.inl rfl)
  · exact (claim_C9
      { surfaceAttr := SurfaceTrackAttr.inst [exDashVideoTrack], boundList := none,
        changeBound := false, listeners := 0 }
      { surfaceAttr := SurfaceTrackAttr.absent, boundList := none,
        changeBound := false, listeners := 0 }).1.2.2.1

/-- C10: while an HLS session is active and the seekable range is
non-empty, the assigned current time is the raw value clamped to the first
seekable range (unchanged when already inside it); with no session or an
empty seekable range the raw value is assigned. -/
theorem claim_C10 (u : String) (seekable : List (ℚ × ℚ)) (a b value : ℚ) :
    currentTimeSet (some u) ((a, b) :: seekable) value = clamp value a b ∧
    (a ≤ b → a ≤ currentTimeSet (some u) ((a, b) :: seekable) value ∧
      currentTimeSet (some u) ((a, b) :: seekable) value ≤ b) ∧
    (a ≤ value → value ≤ b → currentTimeSet (some u) ((a, b) :: seekable) value = value) ∧
    currentTimeSet none seekable value = value ∧
    currentTimeSet (some u) [] value = value := by
  refine ⟨rfl, fun hab => ⟨?_, ?_⟩, fun h1 h2 => ?_, ?_, rfl⟩
  · simp only [currentTimeSet, clamp]
    exact le_min (le_max_right value a) hab
  · simp only [currentTimeSet, clamp]
    exact min_le_right _ _
  · simp only [currentTimeSet, clamp]
    rw [max_eq_left h1, min_eq_left h2]
  · cases seekable <;> rfl

/-- Witness for C10 at concrete inputs: live window `[4, 9]`, raw value
`20` is clamped, raw value `5` passes through, and with no HLS session the
raw value is assigned. -/
theorem claim_C10_witness :
    currentTimeSet (some "https://cdn/master.m3u8") [((4 : ℚ), 9)] 20 = clamp 20 4 9 ∧
    ((4 : ℚ) ≤ 9 ∧ (4 : ℚ) ≤ currentTimeSet (some "https://cdn/master.m3u8") [((4 : ℚ), 9)] 20 ∧
      currentTimeSet (some "https://cdn/master.m3u8") [((4 : ℚ), 9)] 20 ≤ 9) ∧
    ((4 : ℚ) ≤ 5 ∧ (5 : ℚ) ≤ 9 ∧
      currentTimeSet (some "https://cdn/master.m3u8") [((4 : ℚ), 9)] 5 = 5) ∧
    currentTimeSet none ([] : List (ℚ × ℚ)) 20 = 20 := by
  refine ⟨(claim_C10 "https://cdn/master.m3u8" [] 4 9 20).1,
    ⟨by norm_num, (claim_C10 "https://cdn/master.m3u8" [] 4 9 20).2.1 (by norm_num)⟩,
    ⟨by norm_num, by norm_num,
      (claim_C10 "https://cdn/master.m3u8" [] 4 9 5).2.2.1 (by norm_num) (by norm_num)⟩,
    (claim_C10 "https://cdn/master.m3u8" [] 4 9 20).2.2.2.1⟩

theorem detachHls_idem (s : PonyState) : detachHls (detachHls s) = detachHls s := by
  rcases s with ⟨src, te, hi, ha, hs, vl, al, vcb, vba, acb, aba, sk⟩
  cases vl <;> cases al <;> cases vcb <;> cases acb <;>
    simp [detachHls, filter_self_idem]

theorem detachHls_srcAttr (s : PonyState) : (detachHls s).srcAttr = s.srcAttr := rfl

/-- Fixture for the C5 counterexample: no attachment session exists, but
the surface carries a plain (non-HLS) source attribute. -/
def exStateC5 : PonyState :=
  { srcAttr := some "https://cdn/movie.mp4", trackElements := [],
    hasHlsInstance := false, hlsAttached := false, hlsSrc := none,
    videoTrackList := none, audioTrackList := none,
    videoChangeBound := false, videoBoundAttached := false,
    audioChangeBound := false, audioBoundAttached := false, hasSeekable := false }

/-- Counterexample to C5 as stated: with no session (no hls instance, no
stored HLS URL) but a plain source attribute present, `detach` leaves the
surface's source attribute in place, so "afterwards the surface has no
source attribute" fails for the detach branch of the claim. -/
theorem claim_C5_cx :
    exStateC5.hasHlsInstance = false ∧ exStateC5.hlsSrc = none ∧
    (detach exStateC5).srcAttr = some "https://cdn/movie.mp4" := by
  refine ⟨rfl, rfl, rfl⟩

/-- C5 as amended: teardown is idempotent and (being a total function)
exception-free.  After `setSrc('')` — once or twice — the surface has no
source attribute, no hls instance, no stored HLS URL and no ponyfill
subtitle placeholder elements, and the second call changes nothing.
`detach` with or without a session is idempotent and leaves no hls
instance, no stored HLS URL and no placeholders, but it leaves the
surface's source attribute unchanged rather than removing it. -/
theorem claim_C5 (s : PonyState) (fH fB : String → Bool)
    (fI : PonyState → String → PonyState) :
    (setSrc fH fB fI s "").srcAttr = none ∧
    (setSrc fH fB fI s "").hlsSrc = none ∧
    (setSrc fH fB fI s "").hasHlsInstance = false ∧
    (setSrc fH fB fI s "").trackElements.all (fun e => !e.dataHlsPonyfill) = true ∧
    setSrc fH fB fI (setSrc fH fB fI s "") "" = setSrc fH fB fI s "" ∧
    detach (detach s) = detach s ∧
    (detach s).hlsSrc = none ∧
    (detach s).hasHlsInstance = false ∧
    (detach s).trackElements.all (fun e => !e.dataHlsPonyfill) = true ∧
    (detach s).srcAttr = s.srcAttr := by
  have hall : (detachHls s).trackElements.all (fun e => !e.dataHlsPonyfill) = true := by
    simp only [detachHls]
    exact all_filter_self _ _
  have hsets : setSrc fH fB fI s "" = { detachHls s with srcAttr := none } := rfl
  refine ⟨rfl, rfl, rfl, ?_, ?_, detachHls_idem s, rfl, rfl, hall, rfl⟩
  · exact hall
  · show { detachHls { detachHls s with srcAttr := none } with srcAttr := none } =
      { detachHls s with srcAttr := none }
    have h2 : detachHls { detachHls s with srcAttr := none } =
        { detachHls (detachHls s) with srcAttr := none } := rfl
    rw [h2, detachHls_idem]

/-- C6: `detachHls` removes exactly the provenance-tracked (self-inserted)
entries from each bound list — afterwards no provenance-tracked entry
remains — while every entry not in a provenance set stays in its list, in
order, with all of its fields (identifier and selection/enabled state)
unchanged. -/
theorem claim_C6 (s : PonyState) (vl : List VideoTrack) (al : List AudioTrack)
    (hv : s.videoTrackList = some vl) (ha : s.audioTrackList = some al) :
    (detachHls s).videoTrackList = some (vl.filter (fun t => !t.created)) ∧
    (detachHls s).audioTrackList = some (al.filter (fun t => !t.created)) ∧
    (∀ t ∈ (vl.filter (fun t => !t.created)), t.created = false) ∧
    (∀ t ∈ (al.filter (fun t => !t.created)), t.created = false) ∧
    (∀ t ∈ vl, t.created = false → t ∈ vl.filter (fun t => !t.created)) ∧
    (∀ t ∈ al, t.created = false → t ∈ al.filter (fun t => !t.created)) ∧
    (∀ t ∈ vl, t.created = true → t ∉ vl.filter (fun t => !t.created)) ∧
    (∀ t ∈ al, t.created = true → t ∉ al.filter (fun t => !t.created)) := by
  refine ⟨by simp [detachHls, hv], by simp [detachHls, ha], ?_, ?_, ?_, ?_, ?_, ?_⟩
  · intro t ht
    simp only [List.mem_filter, Bool.not_eq_true'] at ht
    exact ht.2
  · intro t ht
    simp only [List.mem_filter, Bool.not_eq_true'] at ht
    exact ht.2
  · intro t ht hc
    simp only [List.mem_filter, Bool.not_eq_true']
    exact ⟨ht, hc⟩
  · intro t ht hc
    simp only [List.mem_filter, Bool.not_eq_true']
    exact ⟨ht, hc⟩
  · intro t _ hc hmem
    simp only [List.mem_filter, Bool.not_eq_true'] at hmem
    rw [hc] at hmem
    simp at hmem
  · intro t _ hc hmem
    simp only [List.mem_filter, Bool.not_eq_true'] at hmem
    rw [hc] at hmem
    simp at hmem

/-- Fixture: a video list holding one external entry and one self-inserted
(provenance-tracked) entry. -/
def exVideoListC6 : List VideoTrack :=
  [exDashVideoTrack,
   { id := "https://cdn/l480.m3u8", language := "en", label := "480p", width := 854,
     height := 480, bitrate := 1000000, selected := true, created := true }]

/-- Fixture: an audio list holding one external entry and one self-inserted
entry. -/
def exAudioListC6 : List AudioTrack :=
  [exDashAudioTrack,
   { id := "https://cdn/a-en.m3u8", language := "en", label := "English",
     enabled := true, created := true }]

/-- Fixture: an attached state whose lists mix external and self-inserted
entries. -/
def exStateC6 : PonyState :=
  { srcAttr := none, trackElements := [],
    hasHlsInstance := true, hlsAttached := true,
    hlsSrc := some "https://cdn/master.m3u8",
    videoTrackList := some exVideoListC6, audioTrackList := some exAudioListC6,
    videoChangeBound := true, videoBoundAttached := true,
    audioChangeBound := true, audioBoundAttached := true, hasSeekable := true }

/-- Witness for C6 at concrete inputs: detaching removes the self-inserted
entries and keeps the external entries untouched. -/
theorem claim_C6_witness :
    exStateC6.videoTrackList = some exVideoListC6 ∧
    exStateC6.audioTrackList = some exAudioListC6 ∧
    (detachHls exStateC6).videoTrackList = some [exDashVideoTrack] ∧
    (detachHls exStateC6).audioTrackList = some [exDashAudioTrack] := by
  have h := claim_C6 exStateC6 exVideoListC6 exAudioListC6 rfl rfl
  exact ⟨rfl, rfl, h.1.trans (by decide), h.2.1.trans (by decide)⟩

theorem getTrackByIdV_none (l : List VideoTrack) (i : String) :
    getTrackByIdV l i = none ↔ ∀ t ∈ l, t.id ≠ i := by
  induction l with
  | nil => simp [getTrackByIdV]
  | cons t rest ih =>
    by_cases h : t.id = i
    · simp [getTrackByIdV, h]
    · simp [getTrackByIdV, h, Option.map_eq_none', ih]

theorem getTrackByIdA_none (l : List AudioTrack) (i : String) :
    getTrackByIdA l i = none ↔ ∀ t ∈ l, t.id ≠ i := by
  induction l with
  | nil => simp [getTrackByIdA]
  | cons t rest ih =>
    by_cases h : t.id = i
    · simp [getTrackByIdA, h]
    · simp [getTrackByIdA, h, Option.map_eq_none', ih]

theorem getTrackByIdV_some (l : List VideoTrack) (i : String) :
    ∀ (k : Nat) (t : VideoTrack), getTrackByIdV l i = some (k, t) →
      l.get? k = some t ∧ t.id = i := by
  induction l with
  | nil => intro k t h; simp [getTrackByIdV] at h
  | cons x rest ih =>
    intro k t h
    unfold getTrackByIdV at h
    by_cases hx : x.id = i
    · rw [if_pos hx] at h
      injection h with h
      obtain ⟨hk, ht⟩ := Prod.mk.injEq 0 x k t ▸ h
      subst hk; subst ht
      exact ⟨rfl, hx⟩
    · rw [if_neg hx] at h
      cases hr : getTrackByIdV rest i with
      | none => rw [hr] at h; simp at h
      | some p =>
        rw [hr] at h
        simp only [Option.map_some'] at h
        injection h with h
        obtain ⟨hk, ht⟩ := Prod.mk.injEq (p.1 + 1) p.2 k t ▸ h
        subst hk; subst ht
        have := ih p.1 p.2 hr
        simpa using this

theorem getTrackByIdA_some (l : List AudioTrack) (i : String) :
    ∀ (k : Nat) (t : AudioTrack), getTrackByIdA l i = some (k, t) →
      l.get? k = some t ∧ t.id = i := by
  induction l with
  | nil => intro k t h; simp [getTrackByIdA] at h
  | cons x rest ih =>
    intro k t h
    unfold getTrackByIdA at h
    by_cases hx : x.id = i
    · rw [if_pos hx] at h
      injection h with h
      obtain ⟨hk, ht⟩ := Prod.mk.injEq 0 x k t ▸ h
      subst hk; subst ht
      exact ⟨rfl, hx⟩
    · rw [if_neg hx] at h
      cases hr : getTrackByIdA rest i with
      | none => rw [hr] at h; simp at h
      | some p =>
        rw [hr] at h
        simp only [Option.map_some'] at h
        injection h with h
        obtain ⟨hk, ht⟩ := Prod.mk.injEq (p.1 + 1) p.2 k t ▸ h
        subst hk; subst ht
        have := ih p.1 p.2 hr
        simpa using this

theorem map_deselect_countP (l : List VideoTrack) :
    (l.map (fun r => { r with selected := false })).countP (fun t => t.selected) = 0 := by
  induction l with
  | nil => rfl
  | cons x xs ih => simp [List.countP_cons, ih]

theorem map_disable_countP (l : List AudioTrack) :
    (l.map (fun r => { r with enabled := false })).countP (fun t => t.enabled) = 0 := by
  induction l with
  | nil => rfl
  | cons x xs ih => simp [List.countP_cons, ih]

theorem selectTrackAt_countP (l : List VideoTrack) :
    ∀ k, k < l.length → (selectTrackAt l k).countP (fun t => t.selected) = 1 := by
  induction l with
  | nil => intro k hk; simp at hk
  | cons x xs ih =>
    intro k hk
    cases k with
    | zero => simp [selectTrackAt, List.countP_cons, map_deselect_countP]
    | succ k =>
      have hk' : k < xs.length := by simpa using Nat.lt_of_succ_lt_succ hk
      simp [selectTrackAt, List.countP_cons, ih k hk']

theorem enableTrackAt_countP (l : List AudioTrack) :
    ∀ k, k < l.length → (enableTrackAt l k).countP (fun t => t.enabled) = 1 := by
  induction l with
  | nil => intro k hk; simp at hk
  | cons x xs ih =>
    intro k hk
    cases k with
    | zero => simp [enableTrackAt, List.countP_cons, map_disable_countP]
    | succ k =>
      have hk' : k < xs.length := by simpa using Nat.lt_of_succ_lt_succ hk
      simp [enableTrackAt, List.countP_cons, ih k hk']

/-- C2: on an engine rendition-switch event with an active rendition, if
the list holds an entry whose identifier equals the active rendition's
identifier then, assuming the single-selection container invariant held
before (at most one entry selected/enabled), exactly one video entry is
selected (respectively exactly one audio entry enabled) afterwards; if no
entry has that identifier the list is returned unchanged. -/
theorem claim_C2 (hls : HlsState) (vl : List VideoTrack) (al : List AudioTrack)
    (lvl : Level) (atr : HlsMediaPlaylist)
    (hlv : jsIndex hls.levels hls.currentLevel = some lvl)
    (hat : jsIndex hls.audioTracks hls.audioTrack = some atr)
    (hv1 : vl.countP (fun t => t.selected) ≤ 1)
    (ha1 : al.countP (fun t => t.enabled) ≤ 1) :
    ((∃ t ∈ vl, t.id = lvl.url.headD "") →
      (updateVideoTrackCore vl hls).countP (fun t => t.selected) = 1) ∧
    ((∀ t ∈ vl, t.id ≠ lvl.url.headD "") → updateVideoTrackCore vl hls = vl) ∧
    ((∃ t ∈ al, t.id = atr.url) →
      (updateAudioTrackCore al hls).countP (fun t => t.enabled) = 1) ∧
    ((∀ t ∈ al, t.id ≠ atr.url) → updateAudioTrackCore al hls = al) := by
  refine ⟨?_, ?_, ?_, ?_⟩
  · rintro ⟨t0, ht0, hid0⟩
    cases hg : getTrackByIdV vl (lvl.url.headD "") with
    | none => exact absurd hid0 ((getTrackByIdV_none vl _).mp hg t0 ht0)
    | some p =>
      obtain ⟨k, t⟩ := p
      obtain ⟨hget, _⟩ := getTrackByIdV_some vl _ k t hg
      cases hsel : t.selected with
      | true =>
        have hres : updateVideoTrackCore vl hls = vl := by
          simp only [updateVideoTrackCore, hlv, hg]
          simp [hsel]
        rw [hres]
        have hpos : 0 < vl.countP (fun t => t.selected) :=
          List.countP_pos_iff.mpr ⟨t, List.get?_mem hget, hsel⟩
        omega
      | false =>
        have hres : updateVideoTrackCore vl hls = selectTrackAt vl k := by
          simp only [updateVideoTrackCore, hlv, hg]
          simp [hsel]
        rw [hres]
        have hk : k < vl.length := by
          rcases List.get?_eq_some.mp hget with ⟨h, _⟩
          exact h
        exact selectTrackAt_countP vl k hk
  · intro hnone
    have hg : getTrackByIdV vl (lvl.url.headD "") = none :=
      (getTrackByIdV_none vl _).mpr hnone
    simp only [updateVideoTrackCore, hlv, hg]
  · rintro ⟨t0, ht0, hid0⟩
    cases hg : getTrackByIdA al atr.url with
    | none => exact absurd hid0 ((getTrackByIdA_none al _).mp hg t0 ht0)
    | some p =>
      obtain ⟨k, t⟩ := p
      obtain ⟨hget, _⟩ := getTrackByIdA_some al _ k t hg
      cases hsel : t.enabled with
      | true =>
        have hres : updateAudioTrackCore al hls = al := by
          simp only [updateAudioTrackCore, hat, hg]
          simp [hsel]
        rw [hres]
        have hpos : 0 < al.countP (fun t => t.enabled) :=
          List.countP_pos_iff.mpr ⟨t, List.get?_mem hget, hsel⟩
        omega
      | false =>
        have hres : updateAudioTrackCore al hls = enableTrackAt al k := by
          simp only [updateAudioTrackCore, hat, hg]
          simp [hsel]
        rw [hres]
        have hk : k < al.length := by
          rcases List.get?_eq_some.mp hget with ⟨h, _⟩
          exact h
        exact enableTrackAt_countP al k hk
  · intro hnone
    have hg : getTrackByIdA al atr.url = none :=
      (getTrackByIdA_none al _).mpr hnone
    simp only [updateAudioTrackCore, hat, hg]

/-- Fixture: a video list for the C2 witness where the external track is
selected and the self-inserted 720p entry matches the newly active level. -/
def exVideoListC2 : List VideoTrack :=
  [{ exDashVideoTrack with selected := true },
   { id := "https://cdn/l480.m3u8", language := "en", label := "480p", width := 854,
     height := 480, bitrate := 1000000, selected := false, created := true },
   { id := "https://cdn/l720.m3u8", language := "en", label := "720p", width := 1280,
     height := 720, bitrate := 2000000, selected := false, created := true }]

/-- Fixture: an audio list for the C2 witness with no entry matching the
active audio rendition. -/
def exAudioListC2 : List AudioTrack :=
  [{ id := "stale-audio", language := "en", label := "stale", enabled := true,
     created := true }]

/-- Witness for C2 at concrete inputs: the active level's entry exists, so
after the switch handler exactly one video entry is selected; no audio
entry matches the active audio rendition, so the audio list is unchanged. -/
theorem claim_C2_witness :
    jsIndex exHls.levels exHls.currentLevel = some exLevel2 ∧
    exVideoListC2.countP (fun t => t.selected) ≤ 1 ∧
    (updateVideoTrackCore exVideoListC2 exHls).countP (fun t => t.selected) = 1 ∧
    updateAudioTrackCore exAudioListC2 exHls = exAudioListC2 := by
  have h := claim_C2 exHls exVideoListC2 exAudioListC2 exLevel2 exAudio1
    (by decide) (by decide) (by decide) (by decide)
  exact ⟨by decide, by decide, h.1 ⟨exVideoListC2.get ⟨2, by decide⟩, by decide, by decide⟩,
    h.2.2.2 (by decide)⟩

theorem firstSelectedV_none (l : List VideoTrack) :
    firstSelectedV l = none ↔ ∀ t ∈ l, t.selected = false := by
  induction l with
  | nil => simp [firstSelectedV]
  | cons t rest ih =>
    cases h : t.selected <;> simp [firstSelectedV, h, ih]

theorem firstEnabledA_none (l : List AudioTrack) :
    firstEnabledA l = none ↔ ∀ t ∈ l, t.enabled = false := by
  induction l with
  | nil => simp [firstEnabledA]
  | cons t rest ih =>
    cases h : t.enabled <;> simp [firstEnabledA, h, ih]

theorem findLevelIdx_none (ls : List Level) (i : String) :
    findLevelIdx ls i = none ↔ ∀ l ∈ ls, l.url.headD "" ≠ i := by
  induction ls with
  | nil => simp [findLevelIdx]
  | cons l rest ih =>
    unfold findLevelIdx
    by_cases h : l.url.headD "" = i
    · rw [if_pos h]
      constructor
      · intro hc; exact Option.noConfusion hc
      · intro hall; exact absurd h (hall l (List.mem_cons_self l rest))
    · rw [if_neg h, Option.map_eq_none', ih]
      constructor
      · intro hall x hx
        rcases List.mem_cons.mp hx with rfl | hx2
        · exact h
        · exact hall x hx2
      · intro hall x hx
        exact hall x (List.mem_cons_of_mem l hx)

theorem findAudioIdx_none (ls : List HlsMediaPlaylist) (i : String) :
    findAudioIdx ls i = none ↔ ∀ a ∈ ls, a.url ≠ i := by
  induction ls with
  | nil => simp [findAudioIdx]
  | cons a rest ih =>
    by_cases h : a.url = i
    · simp [findAudioIdx, h]
    · simp [findAudioIdx, h, Option.map_eq_none', ih]

/-- C3: on a user-driven track-list change, no engine-switch command is
issued when no entry is selected/enabled, when the (first) selected entry's
identifier equals the active rendition's identifier, or when no rendition
carries that identifier; otherwise the command written is the index of the
first rendition with that identifier (none exactly when no match). -/
theorem claim_C3 (hls : HlsState) (vl : List VideoTrack) (al : List AudioTrack) :
    ((∀ t ∈ vl, t.selected = false) → onVideoTracksChangeCore hls vl = none) ∧
    (∀ sel, firstSelectedV vl = some sel →
      ((∃ cur, jsIndex hls.levels hls.currentLevel = some cur ∧
          sel.id = cur.url.headD "") → onVideoTracksChangeCore hls vl = none) ∧
      ((∀ l ∈ hls.levels, l.url.headD "" ≠ sel.id) →
        onVideoTracksChangeCore hls vl = none) ∧
      ((¬ ∃ cur, jsIndex hls.levels hls.currentLevel = some cur ∧
          sel.id = cur.url.headD "") →
        onVideoTracksChangeCore hls vl = findLevelIdx hls.levels sel.id)) ∧
    ((∀ t ∈ al, t.enabled = false) → onAudioTracksChangeCore hls al = none) ∧
    (∀ sel, firstEnabledA al = some sel →
      ((∃ cur, jsIndex hls.audioTracks hls.audioTrack = some cur ∧ cur.url = sel.id) →
        onAudioTracksChangeCore hls al = none) ∧
      ((∀ a ∈ hls.audioTracks, a.url ≠ sel.id) → onAudioTracksChangeCore hls al = none) ∧
      ((¬ ∃ cur, jsIndex hls.audioTracks hls.audioTrack = some cur ∧ cur.url = sel.id) →
        onAudioTracksChangeCore hls al = findAudioIdx hls.audioTracks sel.id)) := by
  refine ⟨?_, ?_, ?_, ?_⟩
  · intro h
    have hnone := (firstSelectedV_none vl).mpr h
    simp only [onVideoTracksChangeCore, hnone]
  · intro sel hsel
    refine ⟨?_, ?_, ?_⟩
    · rintro ⟨cur, hcur, hid⟩
      simp only [onVideoTracksChangeCore, hsel, hcur]
      rw [if_pos hid]
    · intro hall
      have hf := (findLevelIdx_none hls.levels sel.id).mpr hall
      cases hj : jsIndex hls.levels hls.currentLevel with
      | none => simp only [onVideoTracksChangeCore, hsel, hj, hf]
      | some cur =>
        by_cases hid : sel.id = cur.url.headD ""
        · simp only [onVideoTracksChangeCore, hsel, hj]
          rw [if_pos hid]
        · simp only [onVideoTracksChangeCore, hsel, hj]
          rw [if_neg hid]
          exact hf
    · intro hnex
      cases hj : jsIndex hls.levels hls.currentLevel with
      | none => simp only [onVideoTracksChangeCore, hsel, hj]
      | some cur =>
        have hid : sel.id ≠ cur.url.headD "" := fun h => hnex ⟨cur, hj, h⟩
        simp only [onVideoTracksChangeCore, hsel, hj]
        rw [if_neg hid]
  · intro h
    have hnone := (firstEnabledA_none al).mpr h
    simp only [onAudioTracksChangeCore, hnone]
  · intro sel hsel
    refine ⟨?_, ?_, ?_⟩
    · rintro ⟨cur, hcur, hid⟩
      simp only [onAudioTracksChangeCore, hsel, hcur]
      rw [if_pos hid]
    · intro hall
      have hf := (findAudioIdx_none hls.audioTracks sel.id).mpr hall
      cases hj : jsIndex hls.audioTracks hls.audioTrack with
      | none => simp only [onAudioTracksChangeCore, hsel, hj, hf]
      | some cur =>
        by_cases hid : cur.url = sel.id
        · simp only [onAudioTracksChangeCore, hsel, hj]
          rw [if_pos hid]
        · simp only [onAudioTracksChangeCore, hsel, hj]
          rw [if_neg hid]
          exact hf
    · intro hnex
      cases hj : jsIndex hls.audioTracks hls.audioTrack with
      | none => simp only [onAudioTracksChangeCore, hsel, hj]
      | some cur =>
        have hid : ¬ cur.url = sel.id := fun h => hnex ⟨cur, hj, h⟩
        simp only [onAudioTracksChangeCore, hsel, hj]
        rw [if_neg hid]

/-- Fixture: the selected 480p entry used by the C3 witness. -/
def exSelC3 : VideoTrack :=
  { id := "https://cdn/l480.m3u8", language := "en", label := "480p", width := 854,
    height := 480, bitrate := 1000000, selected := true, created := true }

/-- Fixture: the enabled stale audio entry used by the C3 witness. -/
def exSelAudioC3 : AudioTrack :=
  { id := "stale-audio", language := "en", label := "stale", enabled := true,
    created := true }

/-- Fixture: a video list whose first selected entry is the 480p entry
while the engine's active level is 720p. -/
def exVideoListC3 : List VideoTrack := [exSelC3]

/-- Fixture: an audio list whose enabled entry carries a stale identifier
matching no current audio rendition. -/
def exAudioListC3 : List AudioTrack := [exSelAudioC3]

/-- Witness for C3 at concrete inputs: the selected 480p entry differs from
the active 720p level, so the engine is commanded to switch to level index
0; the enabled audio entry's identifier matches no rendition, so no audio
command is issued. -/
theorem claim_C3_witness :
    firstSelectedV exVideoListC3 = some exSelC3 ∧
    onVideoTracksChangeCore exHls exVideoListC3 = some 0 ∧
    onAudioTracksChangeCore exHls exAudioListC3 = none := by
  have h := claim_C3 exHls exVideoListC3 exAudioListC3
  refine ⟨by decide, ?_, ?_⟩
  · have h3 := (h.2.1 exSelC3 (by decide)).2.2 (by decide)
    exact h3.trans (by decide)
  · exact (h.2.2.2 exSelAudioC3 (by decide)).2.1 (by decide)

theorem updateTextTrackOne_of_not_corr (tr : HlsMediaPlaylist) (t : TextTrack)
    (hc : isCorrespondingTrack t tr = false) :
    (updateTextTrackOne tr t).mode = TrackMode.disabled := by
  unfold updateTextTrackOne
  rw [if_neg (by simp [hc])]
  by_cases hm : t.mode = TrackMode.disabled
  · rw [if_neg (not_not.mpr hm)]
    exact hm
  · rw [if_pos hm]

theorem updateTextTrack_count_zero (tr : HlsMediaPlaylist) (tts : List TextTrack)
    (h0 : tts.countP (fun t => isCorrespondingTrack t tr) = 0) :
    (tts.map (updateTextTrackOne tr)).countP
      (fun t => decide (t.mode ≠ TrackMode.disabled)) = 0 := by
  induction tts with
  | nil => rfl
  | cons t rest ih =>
    rw [List.countP_cons] at h0
    have hrest : rest.countP (fun t => isCorrespondingTrack t tr) = 0 := by omega
    have hhead : isCorrespondingTrack t tr = false := by
      cases hc : isCorrespondingTrack t tr
      · rfl
      · rw [hc, if_pos rfl] at h0
        exact absurd h0 (by omega)
    rw [List.map_cons, List.countP_cons, ih hrest]
    simp [updateTextTrackOne_of_not_corr tr t hhead]

theorem updateTextTrack_count (tr : HlsMediaPlaylist) (tts : List TextTrack)
    (h1 : tts.countP (fun t => isCorrespondingTrack t tr) ≤ 1) :
    (tts.map (updateTextTrackOne tr)).countP
      (fun t => decide (t.mode ≠ TrackMode.disabled)) ≤ 1 := by
  induction tts with
  | nil => simp
  | cons t rest ih =>
    rw [List.countP_cons] at h1
    rw [List.map_cons, List.countP_cons]
    cases hc : isCorrespondingTrack t tr
    · have hrest : rest.countP (fun t => isCorrespondingTrack t tr) ≤ 1 := by
        rw [hc, if_neg (by simp)] at h1
        omega
      have hd := updateTextTrackOne_of_not_corr tr t hc
      have hif : (if (decide ((updateTextTrackOne tr t).mode ≠ TrackMode.disabled)) = true
          then 1 else 0) = 0 := by simp [hd]
      rw [hif]
      simpa using ih hrest
    · have hrest : rest.countP (fun t => isCorrespondingTrack t tr) = 0 := by
        rw [hc, if_pos rfl] at h1
        omega
      rw [updateTextTrack_count_zero tr rest hrest]
      split <;> omega

/-- Fixture: a text track corresponding to the active English subtitle
rendition but currently in hidden mode. -/
def exTextTrackHidden : TextTrack :=
  { kind := "subtitles", label := "English", language := "en",
    mode := TrackMode.hidden, cues := [] }

/-- Counterexample to C4 as stated: with the English subtitle rendition
active and a corresponding text track in hidden mode, the handler leaves
that track in hidden mode, so the corresponding track is not in showing
mode after the handler runs. -/
theorem claim_C4_cx :
    isCorrespondingTrack exTextTrackHidden exSub1 = true ∧
    jsIndex exHls.subtitleTracks exHls.subtitleTrack = some exSub1 ∧
    (updateTextTrack [exTextTrackHidden] exHls).map (fun t => t.mode) =
      [TrackMode.hidden] := by
  exact ⟨by decide, by decide, by decide⟩

/-- C4 as amended: on an engine subtitle-switch event with an active
rendition, and with at most one text track corresponding to it, after the
handler every corresponding track is in a non-disabled mode — set to
showing when it was disabled, left in its previous (showing or hidden)
mode otherwise — every non-corresponding track is in disabled mode, and at
most one text track is in a non-disabled state. -/
theorem claim_C4 (tts : List TextTrack) (hls : HlsState) (tr : HlsMediaPlaylist)
    (htr : jsIndex hls.subtitleTracks hls.subtitleTrack = some tr)
    (huniq : tts.countP (fun t => isCorrespondingTrack t tr) ≤ 1) :
    (updateTextTrack tts hls).length = tts.length ∧
    (∀ k t t2, tts.get? k = some t → (updateTextTrack tts hls).get? k = some t2 →
      (isCorrespondingTrack t tr = true →
        (t2.mode ≠ TrackMode.disabled ∧
         (t.mode = TrackMode.disabled → t2.mode = TrackMode.showing) ∧
         (t.mode ≠ TrackMode.disabled → t2.mode = t.mode))) ∧
      (isCorrespondingTrack t tr = false → t2.mode = TrackMode.disabled)) ∧
    (updateTextTrack tts hls).countP (fun t => decide (t.mode ≠ TrackMode.disabled)) ≤ 1 := by
  have hmap : updateTextTrack tts hls = tts.map (updateTextTrackOne tr) := by
    simp only [updateTextTrack, htr]
  refine ⟨by rw [hmap]; exact List.length_map _ _, ?_, ?_⟩
  · intro k t t2 hk hk2
    rw [hmap, List.get?_map, hk, Option.map_some'] at hk2
    injection hk2 with hk2
    subst hk2
    constructor
    · intro hc
      unfold updateTextTrackOne
      rw [if_pos hc]
      by_cases hm : t.mode = TrackMode.disabled
      · rw [if_pos hm]
        refine ⟨by simp, fun _ => rfl, fun hnm => absurd hm hnm⟩
      · rw [if_neg hm]
        refine ⟨hm, fun h => absurd h hm, fun _ => rfl⟩
    · intro hc
      exact updateTextTrackOne_of_not_corr tr t hc
  · rw [hmap]
    exact updateTextTrack_count tr tts huniq

/-- Fixture: a text track corresponding to the active subtitle rendition
currently disabled. -/
def exTextTrackDisabled : TextTrack :=
  { kind := "subtitles", label := "English", language := "en",
    mode := TrackMode.disabled, cues := [] }

/-- Fixture: a non-corresponding text track currently showing. -/
def exTextTrackOther : TextTrack :=
  { kind := "subtitles", label := "Deutsch", language := "de",
    mode := TrackMode.showing, cues := [] }

/-- Witness for the amended C4 at concrete inputs: the corresponding
disabled track and a non-corresponding showing track, with the English
rendition active; afterwards at most one track is non-disabled. -/
theorem claim_C4_witness :
    jsIndex exHls.subtitleTracks exHls.subtitleTrack = some exSub1 ∧
    ([exTextTrackDisabled, exTextTrackOther].countP
      (fun t => isCorrespondingTrack t exSub1)) ≤ 1 ∧
    (updateTextTrack [exTextTrackDisabled, exTextTrackOther] exHls).countP
      (fun t => decide (t.mode ≠ TrackMode.disabled)) ≤ 1 := by
  refine ⟨by decide, by decide, ?_⟩
  exact (claim_C4 [exTextTrackDisabled, exTextTrackOther] exHls exSub1
    (by decide) (by decide)).2.2

theorem mkVideoTracks_map_id (cur : Int) :
    ∀ (ls : List Level) (i : Nat),
      (mkVideoTracks cur i ls).map (fun t => t.id) = ls.map (fun l => l.url.headD "") := by
  intro ls
  induction ls with
  | nil => intro i; rfl
  | cons l rest ih => intro i; simp [mkVideoTracks, ih]

theorem mkAudioTracks_map_id (cur : Int) :
    ∀ (ls : List HlsMediaPlaylist) (i : Nat),
      (mkAudioTracks cur i ls).map (fun t => t.id) = ls.map (fun a => a.url) := by
  intro ls
  induction ls with
  | nil => intro i; rfl
  | cons a rest ih => intro i; simp [mkAudioTracks, ih]

theorem mkVideoTracks_created (cur : Int) :
    ∀ (ls : List Level) (i : Nat), ∀ t ∈ mkVideoTracks cur i ls, t.created = true := by
  intro ls
  induction ls with
  | nil => intro i t ht; simp [mkVideoTracks] at ht
  | cons l rest ih =>
    intro i t ht
    rcases List.mem_cons.mp ht with rfl | ht2
    · rfl
    · exact ih (i + 1) t ht2

theorem mkAudioTracks_created (cur : Int) :
    ∀ (ls : List HlsMediaPlaylist) (i : Nat), ∀ t ∈ mkAudioTracks cur i ls, t.created = true := by
  intro ls
  induction ls with
  | nil => intro i t ht; simp [mkAudioTracks] at ht
  | cons a rest ih =>
    intro i t ht
    rcases List.mem_cons.mp ht with rfl | ht2
    · rfl
    · exact ih (i + 1) t ht2

theorem mkVideoTracks_get (cur : Int) :
    ∀ (ls : List Level) (i k : Nat) (lv : Level), ls.get? k = some lv →
      ∃ t, (mkVideoTracks cur i ls).get? k = some t ∧ t.id = lv.url.headD "" ∧
        t.selected = decide (cur = ((i + k : Nat) : Int)) ∧ t.created = true := by
  intro ls
  induction ls with
  | nil => intro i k lv h; simp at h
  | cons l rest ih =>
    intro i k lv h
    cases k with
    | zero =>
      injection h with h
      subst h
      refine ⟨_, rfl, rfl, ?_, rfl⟩
      simp
    | succ k =>
      obtain ⟨t, ht, hid, hsel, hcr⟩ := ih (i + 1) k lv h
      refine ⟨t, ht, hid, ?_, hcr⟩
      rw [hsel]
      congr 2
      omega

theorem mkAudioTracks_get (cur : Int) :
    ∀ (ls : List HlsMediaPlaylist) (i k : Nat) (a : HlsMediaPlaylist), ls.get? k = some a →
      ∃ t, (mkAudioTracks cur i ls).get? k = some t ∧ t.id = a.url ∧
        t.enabled = decide (cur = ((i + k : Nat) : Int)) ∧ t.created = true := by
  intro ls
  induction ls with
  | nil => intro i k a h; simp at h
  | cons x rest ih =>
    intro i k a h
    cases k with
    | zero =>
      injection h with h
      subst h
      refine ⟨_, rfl, rfl, ?_, rfl⟩
      simp
    | succ k =>
      obtain ⟨t, ht, hid, hsel, hcr⟩ := ih (i + 1) k a h
      refine ⟨t, ht, hid, ?_, hcr⟩
      rw [hsel]
      congr 2
      omega

/-- C1: on a manifest-loaded event processed while a session is active and
both lists are bound, after `updateTrackLists` the self-inserted (created)
entries of the video list are exactly one per engine level in engine order
— mirroring the levels' identifiers, with no stale self-inserted entries —
with no duplicate identifiers (given the engine reports distinct ones), and
the entry at the engine's current level index is the one marked selected;
likewise for the audio list against the engine's audio renditions. -/
theorem claim_C1 (s : PonyState) (hls : HlsState) (u : String)
    (vl : List VideoTrack) (al : List AudioTrack)
    (hsrc : s.hlsSrc = some u)
    (hv : s.videoTrackList = some vl) (ha : s.audioTrackList = some al)
    (hnv : (hls.levels.map (fun l => l.url.headD "")).Nodup)
    (hna : (hls.audioTracks.map (fun a => a.url)).Nodup) :
    (updateTrackLists s hls).videoTrackList =
      some (vl.filter (fun t => !t.created) ++ mkVideoTracks hls.currentLevel 0 hls.levels) ∧
    (updateTrackLists s hls).audioTrackList =
      some (al.filter (fun t => !t.created) ++ mkAudioTracks hls.audioTrack 0 hls.audioTracks) ∧
    (((updateTrackLists s hls).videoTrackList.getD []).filter (fun t => t.created) =
      mkVideoTracks hls.currentLevel 0 hls.levels) ∧
    (((updateTrackLists s hls).audioTrackList.getD []).filter (fun t => t.created) =
      mkAudioTracks hls.audioTrack 0 hls.audioTracks) ∧
    ((((updateTrackLists s hls).videoTrackList.getD []).filter (fun t => t.created)).map
      (fun t => t.id) = hls.levels.map (fun l => l.url.headD "")) ∧
    ((((updateTrackLists s hls).audioTrackList.getD []).filter (fun t => t.created)).map
      (fun t => t.id) = hls.audioTracks.map (fun a => a.url)) ∧
    (((((updateTrackLists s hls).videoTrackList.getD []).filter (fun t => t.created)).map
      (fun t => t.id)).Nodup) ∧
    (((((updateTrackLists s hls).audioTrackList.getD []).filter (fun t => t.created)).map
      (fun t => t.id)).Nodup) ∧
    (∀ k lv, hls.levels.get? k = some lv →
      ∃ t, (((updateTrackLists s hls).videoTrackList.getD []).filter
          (fun t => t.created)).get? k = some t ∧
        t.id = lv.url.headD "" ∧ t.selected = decide (hls.currentLevel = (k : Int)) ∧
        t.created = true) ∧
    (∀ k a, hls.audioTracks.get? k = some a →
      ∃ t, (((updateTrackLists s hls).audioTrackList.getD []).filter
          (fun t => t.created)).get? k = some t ∧
        t.id = a.url ∧ t.enabled = decide (hls.audioTrack = (k : Int)) ∧
        t.created = true) := by
  have hvz : (updateTrackLists s hls).videoTrackList =
      some (vl.filter (fun t => !t.created) ++ mkVideoTracks hls.currentLevel 0 hls.levels) := by
    simp only [updateTrackLists, hsrc, hv, ha]
    rfl
  have haz : (updateTrackLists s hls).audioTrackList =
      some (al.filter (fun t => !t.created) ++ mkAudioTracks hls.audioTrack 0 hls.audioTracks) := by
    simp only [updateTrackLists, hsrc, hv, ha]
    rfl
  have hfcv : ((updateTrackLists s hls).videoTrackList.getD []).filter (fun t => t.created) =
      mkVideoTracks hls.currentLevel 0 hls.levels := by
    rw [hvz]
    show ((vl.filter (fun t => !t.created) ++
      mkVideoTracks hls.currentLevel 0 hls.levels).filter (fun t => t.created)) = _
    rw [List.filter_append, filter_not_filter (fun t => t.created) vl, List.nil_append,
      List.filter_eq_self.mpr (mkVideoTracks_created hls.currentLevel hls.levels 0)]
  have hfca : ((updateTrackLists s hls).audioTrackList.getD []).filter (fun t => t.created) =
      mkAudioTracks hls.audioTrack 0 hls.audioTracks := by
    rw [haz]
    show ((al.filter (fun t => !t.created) ++
      mkAudioTracks hls.audioTrack 0 hls.audioTracks).filter (fun t => t.created)) = _
    rw [List.filter_append, filter_not_filter (fun t => t.created) al, List.nil_append,
      List.filter_eq_self.mpr (mkAudioTracks_created hls.audioTrack hls.audioTracks 0)]
  have hmv : (((updateTrackLists s hls).videoTrackList.getD []).filter
      (fun t => t.created)).map (fun t => t.id) = hls.levels.map (fun l => l.url.headD "") := by
    rw [hfcv, mkVideoTracks_map_id]
  have hma : (((updateTrackLists s hls).audioTrackList.getD []).filter
      (fun t => t.created)).map (fun t => t.id) = hls.audioTracks.map (fun a => a.url) := by
    rw [hfca, mkAudioTracks_map_id]
  refine ⟨hvz, haz, hfcv, hfca, hmv, hma, ?_, ?_, ?_, ?_⟩
  · rw [hmv]; exact hnv
  · rw [hma]; exact hna
  · intro k lv hk
    rw [hfcv]
    simpa using mkVideoTracks_get hls.currentLevel hls.levels 0 k lv hk
  · intro k a hk
    rw [hfca]
    simpa using mkAudioTracks_get hls.audioTrack hls.audioTracks 0 k a hk

/-- Fixture: an attached state before a manifest-loaded event, whose lists
hold an external entry and a stale self-inserted entry each. -/
def exStateC1 : PonyState :=
  { srcAttr := none, trackElements := [],
    hasHlsInstance := true, hlsAttached := true,
    hlsSrc := some "https://cdn/master.m3u8",
    videoTrackList := some [exDashVideoTrack,
      { id := "stale-level", language := "", label := "stale", width := 1,
        height := 1, bitrate := 1, selected := true, created := true }],
    audioTrackList := some [exDashAudioTrack,
      { id := "stale-audio", language := "", label := "stale", enabled := true,
        created := true }],
    videoChangeBound := true, videoBoundAttached := true,
    audioChangeBound := true, audioBoundAttached := true, hasSeekable := true }

/-- Witness for C1 at concrete inputs: after the manifest-loaded handler
the created entries mirror the two levels and one audio rendition of the
engine, stale self-inserted entries are gone, and identifiers are
duplicate-free. -/
theorem claim_C1_witness :
    exStateC1.hlsSrc = some "https://cdn/master.m3u8" ∧
    ((exHls.levels.map (fun l => l.url.headD "")).Nodup ∧
      (exHls.audioTracks.map (fun a => a.url)).Nodup) ∧
    ((((updateTrackLists exStateC1 exHls).videoTrackList.getD []).filter
        (fun t => t.created)).map (fun t => t.id) =
      exHls.levels.map (fun l => l.url.headD "")) ∧
    ((((updateTrackLists exStateC1 exHls).videoTrackList.getD []).filter
        (fun t => t.created)).map (fun t => t.id)).Nodup ∧
    (((updateTrackLists exStateC1 exHls).audioTrackList.getD []).filter
        (fun t => t.created) = mkAudioTracks exHls.audioTrack 0 exHls.audioTracks) := by
  have h := claim_C1 exStateC1 exHls "https://cdn/master.m3u8"
    [exDashVideoTrack,
      { id := "stale-level", language := "", label := "stale", width := 1,
        height := 1, bitrate := 1, selected := true, created := true }]
    [exDashAudioTrack,
      { id := "stale-audio", language := "", label := "stale", enabled := true,
        created := true }]
    rfl rfl rfl (by decide) (by decide)
  exact ⟨rfl, ⟨by decide, by decide⟩, h.2.2.2.2.1, h.2.2.2.2.2.2.1, h.2.2.2.1⟩

theorem isDuplicateCue_iff (a b : VTTCue) : isDuplicateCue a b = true ↔ a = b := by
  cases a; cases b
  simp [isDuplicateCue]

theorem isDuplicateCue_self (c : VTTCue) : isDuplicateCue c c = true := by
  simp [isDuplicateCue]

theorem foldl_addCue_cues (cues : List VTTCue) :
    ∀ t : TextTrack, ∃ extra, (cues.foldl addCueToTrack t).cues = t.cues ++ extra ∧
      extra.Sublist cues := by
  induction cues with
  | nil => intro t; exact ⟨[], by simp, List.nil_sublist []⟩
  | cons c rest ih =>
    intro t
    rw [List.foldl_cons]
    obtain ⟨e, he, hs⟩ := ih (addCueToTrack t c)
    by_cases h : t.cues.any (fun c0 => isDuplicateCue c0 c) = true
    · refine ⟨e, ?_, hs.cons c⟩
      rw [he]
      unfold addCueToTrack
      rw [if_pos h]
    · refine ⟨c :: e, ?_, hs.cons₂ c⟩
      rw [he]
      unfold addCueToTrack
      rw [if_neg h, List.append_assoc, List.singleton_append]

theorem addCue_foldl_any (cues : List VTTCue) (t : TextTrack) (c : VTTCue)
    (h : t.cues.any (fun c0 => isDuplicateCue c0 c) = true) :
    (cues.foldl addCueToTrack t).cues.any (fun c0 => isDuplicateCue c0 c) = true := by
  obtain ⟨e, he, _⟩ := foldl_addCue_cues cues t
  rw [he, List.any_append, h]
  rfl

theorem addCue_foldl_present (cues : List VTTCue) :
    ∀ t : TextTrack, ∀ c ∈ cues,
      (cues.foldl addCueToTrack t).cues.any (fun c0 => isDuplicateCue c0 c) = true := by
  induction cues with
  | nil => intro t c hc; simp at hc
  | cons c1 rest ih =>
    intro t c hc
    rw [List.foldl_cons]
    rcases List.mem_cons.mp hc with rfl | hc2
    · apply addCue_foldl_any
      unfold addCueToTrack
      by_cases h : t.cues.any (fun c0 => isDuplicateCue c0 c) = true
      · rw [if_pos h]; exact h
      · rw [if_neg h]
        rw [List.any_append]
        simp [isDuplicateCue_self]
    · exact ih (addCueToTrack t c1) c hc2

theorem addCue_step_count (t : TextTrack) (c1 c : VTTCue) :
    (addCueToTrack t c1).cues.countP (fun c0 => isDuplicateCue c0 c) ≤
      max (t.cues.countP (fun c0 => isDuplicateCue c0 c)) 1 := by
  unfold addCueToTrack
  by_cases h : t.cues.any (fun c0 => isDuplicateCue c0 c1) = true
  · rw [if_pos h]; exact le_max_left _ _
  · rw [if_neg h]
    rw [List.countP_append]
    by_cases hd : isDuplicateCue c1 c = true
    · have hc1 : c1 = c := (isDuplicateCue_iff c1 c).mp hd
      subst hc1
      have hz : t.cues.countP (fun c0 => isDuplicateCue c0 c1) = 0 := by
        rw [List.countP_eq_zero]
        intro a ha hcon
        exact h (List.any_eq_true.mpr ⟨a, ha, hcon⟩)
      rw [hz]
      have h1 : ([c1].countP (fun c0 => isDuplicateCue c0 c1)) = 1 := by
        simp [List.countP_cons, isDuplicateCue_self]
      rw [h1]
      exact le_max_right _ _
    · have h0 : ([c1].countP (fun c0 => isDuplicateCue c0 c)) = 0 := by
        simp [List.countP_cons, hd]
      rw [h0, Nat.add_zero]
      exact le_max_left _ _

theorem addCue_foldl_count (cues : List VTTCue) :
    ∀ (t : TextTrack) (c : VTTCue),
      (cues.foldl addCueToTrack t).cues.countP (fun c0 => isDuplicateCue c0 c) ≤
        max (t.cues.countP (fun c0 => isDuplicateCue c0 c)) 1 := by
  induction cues with
  | nil => intro t c; simp
  | cons c1 rest ih =>
    intro t c
    rw [List.foldl_cons]
    have h1 := ih (addCueToTrack t c1) c
    have h2 := addCue_step_count t c1 c
    have h3 : max ((addCueToTrack t c1).cues.countP (fun c0 => isDuplicateCue c0 c)) 1 ≤
        max (max (t.cues.countP (fun c0 => isDuplicateCue c0 c)) 1) 1 :=
      max_le_max h2 (le_refl 1)
    have h4 : max (max (t.cues.countP (fun c0 => isDuplicateCue c0 c)) 1) 1 =
        max (t.cues.countP (fun c0 => isDuplicateCue c0 c)) 1 := by
      rw [max_assoc]
      simp
    exact le_trans h1 (le_trans h3 (le_of_eq h4))

theorem addCuesToFirst_none (cues : List VTTCue) (cur : HlsMediaPlaylist) :
    ∀ tts : List TextTrack, (∀ t ∈ tts, isCorrespondingTrack t cur = false) →
      addCuesToFirst tts cues cur = tts := by
  intro tts
  induction tts with
  | nil => intro h; rfl
  | cons t rest ih =>
    intro h
    unfold addCuesToFirst
    rw [if_neg (by simp [h t (List.mem_cons_self t rest)])]
    rw [ih (fun x hx => h x (List.mem_cons_of_mem t hx))]

theorem addCuesToFirst_split (cues : List VTTCue) (cur : HlsMediaPlaylist) :
    ∀ (pre : List TextTrack) (t : TextTrack) (post : List TextTrack),
      (∀ p ∈ pre, isCorrespondingTrack p cur = false) →
      isCorrespondingTrack t cur = true →
      addCuesToFirst (pre ++ t :: post) cues cur =
        pre ++ (cues.foldl addCueToTrack t) :: post := by
  intro pre
  induction pre with
  | nil =>
    intro t post hpre ht
    show addCuesToFirst (t :: post) cues cur = _
    unfold addCuesToFirst
    rw [if_pos ht]
    rfl
  | cons p rest ih =>
    intro t post hpre ht
    show addCuesToFirst (p :: (rest ++ t :: post)) cues cur = _
    unfold addCuesToFirst
    rw [if_neg (by simp [hpre p (List.mem_cons_self p rest)])]
    rw [ih t post (fun x hx => hpre x (List.mem_cons_of_mem p hx)) ht]
    rfl

/-- C7: a cues-parsed event is a no-op when no subtitle rendition is
active (index `-1` or out of range); otherwise the first text track
corresponding to the active rendition receives the cues — every earlier
(non-corresponding) track and every later track is untouched — appended in
the order given (the receiving track's cue list is extended by a
subsequence of the parsed cues, every parsed cue is present afterwards),
and a cue identical in start time, end time and payload to one already
present is skipped, so for any cue the receiving track never holds more
than one copy unless duplicates pre-existed. -/
theorem claim_C7 (tts : List TextTrack) (cues : List VTTCue) (hls : HlsState) :
    (hls.subtitleTrack = -1 → addCues tts cues hls = tts) ∧
    (jsIndex hls.subtitleTracks hls.subtitleTrack = none → addCues tts cues hls = tts) ∧
    (∀ cur, hls.subtitleTrack ≠ -1 →
      jsIndex hls.subtitleTracks hls.subtitleTrack = some cur →
      ((∀ t ∈ tts, isCorrespondingTrack t cur = false) → addCues tts cues hls = tts) ∧
      (∀ pre t post, tts = pre ++ t :: post →
        (∀ p ∈ pre, isCorrespondingTrack p cur = false) →
        isCorrespondingTrack t cur = true →
        addCues tts cues hls = pre ++ (cues.foldl addCueToTrack t) :: post)) ∧
    (∀ t : TextTrack, ∃ extra, (cues.foldl addCueToTrack t).cues = t.cues ++ extra ∧
      extra.Sublist cues) ∧
    (∀ t : TextTrack, ∀ c ∈ cues,
      (cues.foldl addCueToTrack t).cues.any (fun c0 => isDuplicateCue c0 c) = true) ∧
    (∀ (t : TextTrack) (c : VTTCue),
      (cues.foldl addCueToTrack t).cues.countP (fun c0 => isDuplicateCue c0 c) ≤
        max (t.cues.countP (fun c0 => isDuplicateCue c0 c)) 1) := by
  refine ⟨?_, ?_, ?_, foldl_addCue_cues cues, addCue_foldl_present cues,
    addCue_foldl_count cues⟩
  · intro h
    simp [addCues, h]
  · intro h
    unfold addCues
    by_cases hneg : hls.subtitleTrack = -1
    · rw [if_pos hneg]
    · rw [if_neg hneg, h]
  · intro cur hne hcur
    constructor
    · intro hnone
      unfold addCues
      rw [if_neg hne, hcur]
      exact addCuesToFirst_none cues cur tts hnone
    · intro pre t post heq hpre ht
      unfold addCues
      rw [if_neg hne, hcur, heq]
      exact addCuesToFirst_split cues cur pre t post hpre ht

/-- Fixture: the cue of the spec's subtitle scenario. -/
def exCue : VTTCue := { startTime := 1, endTime := 2, text := "Hi" }

/-- Witness for C7 at concrete inputs: with the English rendition active,
parsing the same cue twice appends it exactly once to the first
corresponding track and leaves the non-corresponding track untouched. -/
theorem claim_C7_witness :
    exHls.subtitleTrack ≠ -1 ∧
    jsIndex exHls.subtitleTracks exHls.subtitleTrack = some exSub1 ∧
    isCorrespondingTrack exTextTrackOther exSub1 = false ∧
    isCorrespondingTrack exTextTrackHidden exSub1 = true ∧
    addCues [exTextTrackOther, exTextTrackHidden] [exCue, exCue] exHls =
      [exTextTrackOther, { exTextTrackHidden with cues := [exCue] }] := by
  have h := ((claim_C7 [exTextTrackOther, exTextTrackHidden] [exCue, exCue] exHls).2.2.1
    exSub1 (by decide) (by decide)).2 [exTextTrackOther] exTextTrackHidden []
    rfl (by decide) (by decide)
  exact ⟨by decide, by decide, by decide, by decide, h.trans (by decide)⟩
